import Mathlib

/-!
Verification of the CessPlug agent commission and payout settlement engine.

The definitions below are shallow embeddings of the JavaScript source:
  * `calculateCommission`    — Commission.js `calculateCommission` static
  * `createCommission`       — commission controller `createCommission`
  * `allocate`               — the FIFO walk of `processPayoutRequest` (pay)
  * `processPayoutPay`       — the pay branch of `processPayoutRequest`
  * `payAction`              — `processPayoutRequest` action dispatch guards
  * `validationErrors`       — middleware `validatePayoutRequest`
  * `arePayoutsAllowed`      — PayoutSettings method `arePayoutsAllowed`
  * `nextPayoutWindow`       — next-window computation of `checkPayoutWindow`
  * `createPayoutRequest`    — auto-approval/auto-payment logic of the
                               payout-request creation controller

Money is modelled as `ℚ` (JavaScript numbers, exact arithmetic on the
concrete decimal values the code manipulates).  Clock instants are modelled
as a day index (day 0 a Sunday, so `dayIdx % 7` matches JavaScript's
`getDay`) together with a minute-of-day; `"HH:MM"` strings compare
lexicographically exactly as their minute values compare, so times are
minutes.  Audit-only string fields (descriptions, notes text) are modelled
as tags where a claim needs them and elided otherwise.
-/

namespace CessPlug

/-- Commission lifecycle status (`status` enum of the Commission schema). -/
inductive CStatus where
  | pending
  | paid
  | cancelled
deriving DecidableEq, Repr

/-- Commission type (`type` enum of the Commission schema). -/
inductive CType where
  | delivery
  | agent_order
deriving DecidableEq, Repr

/-- Commission ledger entry: the Commission schema fields the settlement
engine reads or writes.  Timestamps and display strings are elided;
`splitRemainder` models the "(Split - Remaining)" description tag put on
the new entry created by a split. -/
structure CommissionE where
  cid : Nat
  orderId : Nat
  agentId : Nat
  ctype : CType
  amount : ℚ
  status : CStatus
  orderTotal : ℚ
  commissionRate : ℚ
  payoutRequestId : Option Nat := none
  splitRemainder : Bool := false
deriving DecidableEq, Repr

/-- `commissionRates` sub-document of the PayoutSettings schema. -/
structure CommissionRates where
  deliveryAmount : ℚ
  agentOrder : ℚ
deriving DecidableEq, Repr

/-- `payoutSchedule` sub-document of the PayoutSettings schema.
`startTime`/`endTime` are the "HH:MM" strings as minutes since midnight. -/
structure Schedule where
  enabled : Bool
  dayOfWeek : Nat
  startTime : Nat
  endTime : Nat
deriving DecidableEq, Repr

/-- The PayoutSettings fields consumed by the claims. -/
structure PSettings where
  sid : Nat
  minWithdrawalAmount : ℚ
  maxWithdrawalAmount : ℚ
  commissionRates : CommissionRates
  payoutSchedule : Schedule
  globalPayoutHold : Bool
  processingFee : ℚ
  autoApprovalThreshold : ℚ
  requireManagerApproval : Bool
  maxPayoutsPerDay : Nat
  maxPayoutAmountPerDay : ℚ
deriving DecidableEq, Repr

/-- Result record of `Commission.calculateCommission`. -/
structure CalcResult where
  amount : ℚ
  rate : ℚ
  isFixedAmount : Bool
  deliveryCount : Nat
  settingsId : Option Nat
deriving DecidableEq, Repr

/-- `Commission.calculateCommission(orderTotal, type, deliveryCount)` from
models/Commission.js.  `settings = none` models
`PayoutSettings.getCurrentSettings()` throwing: the catch branch then
substitutes the hard-coded defaults (KSh 200 per delivery, 3% for agent
orders) with a null settings id.  With settings loaded, the agent-order
rate is `settings.commissionRates.agentOrder || 0.03`: a zero (falsy) rate
is replaced by the 0.03 default.  `Math.round` on the non-negative money
values involved is round-half-up, i.e. Mathlib's `round`. -/
def calculateCommission (settings : Option PSettings) (orderTotal : ℚ)
    (t : CType) (deliveryCount : Nat) : CalcResult :=
  match settings with
  | some s =>
    match t with
    | .delivery =>
        { amount := s.commissionRates.deliveryAmount * deliveryCount
          rate := s.commissionRates.deliveryAmount
          isFixedAmount := true
          deliveryCount := deliveryCount
          settingsId := some s.sid }
    | .agent_order =>
        let rate : ℚ :=
          if s.commissionRates.agentOrder = 0 then 3/100
          else s.commissionRates.agentOrder
        { amount := (round (orderTotal * rate) : ℤ)
          rate := rate
          isFixedAmount := false
          deliveryCount := deliveryCount
          settingsId := some s.sid }
  | none =>
    match t with
    | .delivery =>
        { amount := 200 * deliveryCount
          rate := 200
          isFixedAmount := true
          deliveryCount := deliveryCount
          settingsId := none }
    | .agent_order =>
        { amount := (round (orderTotal * (3/100 : ℚ)) : ℤ)
          rate := 3/100
          isFixedAmount := false
          deliveryCount := deliveryCount
          settingsId := none }

/-- A concrete loaded policy whose agent-order fraction is zero (the
schema allows any rate in [0,1]). -/
def zeroRateSettings : PSettings :=
  { sid := 1
    minWithdrawalAmount := 100
    maxWithdrawalAmount := 50000
    commissionRates := { deliveryAmount := 200, agentOrder := 0 }
    payoutSchedule := { enabled := false, dayOfWeek := 5, startTime := 420, endTime := 1439 }
    globalPayoutHold := false
    processingFee := 0
    autoApprovalThreshold := 1000
    requireManagerApproval := false
    maxPayoutsPerDay := 5
    maxPayoutAmountPerDay := 100000 }

/-- Payout request status (`status` enum of the PayoutRequest schema). -/
inductive PRStatus where
  | pending
  | approved
  | paid
  | rejected
  | on_hold
deriving DecidableEq, Repr

/-- Tag standing for the `notes` strings the payout-request controller
writes (the exact wording is audit-only). -/
inductive PRNote where
  | empty
  | autoApproved
  | autoApprovedAndPaid
  | autoApprovedInsufficientBalance
  | autoPayFailed
deriving DecidableEq, Repr

/-- PayoutRequest fields the settlement claims read or write. -/
structure PayoutReq where
  prid : Nat
  agentId : Nat
  amount : ℚ
  status : PRStatus
  commissionIds : List Nat := []
  note : PRNote := .empty
  processedBy : Option Nat := none
deriving DecidableEq, Repr

/-- Sum of the `amount` fields of a list of commission entries (the
`reduce((sum, c) => sum + c.amount, 0)` pattern of the controllers). -/
def totalAmount (es : List CommissionE) : ℚ := (es.map (·.amount)).sum

/-- An entry marked fully paid by the settlement loop: status `paid`,
stamped with the payout request id (amount untouched). -/
def payFull (pid : Nat) (c : CommissionE) : CommissionE :=
  { c with status := .paid, payoutRequestId := some pid }

/-- The new pending entry created by a split: cloned from the original
with amount `rem` (the original's amount minus the slice being paid) and
the "(Split - Remaining)" tag. -/
def mkRemainder (freshId : Nat) (c : CommissionE) (rem : ℚ) : CommissionE :=
  { cid := freshId
    orderId := c.orderId
    agentId := c.agentId
    ctype := c.ctype
    amount := rem
    status := .pending
    orderTotal := c.orderTotal
    commissionRate := c.commissionRate
    payoutRequestId := none
    splitRemainder := true }

/-- The original entry of a split: amount mutated down to the paid slice
`slice`, status `paid`, stamped with the payout request id. -/
def paySplit (pid : Nat) (c : CommissionE) (slice : ℚ) : CommissionE :=
  { c with amount := slice, status := .paid, payoutRequestId := some pid }

/-- The FIFO allocation walk of `processPayoutRequest` (pay action): walks
the pending entries oldest-first with a `remainingAmount` counter,
breaking when it reaches 0; an entry with `amount ≤ remaining` is paid in
full, otherwise the entry is split and the walk stops.  Returns (final
versions of the walked entries in order, newly created entries, recorded
paid commission ids in walk order, final remaining). -/
def allocate (pid freshId : Nat) (remaining : ℚ) :
    List CommissionE → List CommissionE × List CommissionE × List Nat × ℚ
  | [] => ([], [], [], remaining)
  | c :: rest =>
    if remaining ≤ 0 then (c :: rest, [], [], remaining)
    else if c.amount ≤ remaining then
      let r := allocate pid freshId (remaining - c.amount) rest
      (payFull pid c :: r.1, r.2.1, c.cid :: r.2.2.1, r.2.2.2)
    else
      (paySplit pid c remaining :: rest, [mkRemainder freshId c (c.amount - remaining)],
        [c.cid], 0)

/-- Errors of the pay action of `processPayoutRequest`.  The
insufficient-balance error carries both the available and the requested
amount, as in the controller's message. -/
inductive PayError where
  | alreadyPaid
  | alreadyRejected
  | notPayable
  | insufficientBalance (available requested : ℚ)
  | incompletePayment (paid requested : ℚ)
deriving DecidableEq, Repr

/-- The pay branch of `processPayoutRequest`, given the agent's pending
commissions oldest-first (`Commission.find({status:'pending'}).sort`): the
sufficiency check, the allocation walk, and the final
`totalPaid !== amount` guard.  On success returns (updated walked entries,
new split entries, recorded ids, total paid).  On error the controller
returns before persisting anything, so no updated state is produced. -/
def processPayoutPay (pid freshId : Nat) (amount : ℚ)
    (pendingComms : List CommissionE) :
    Except PayError (List CommissionE × List CommissionE × List Nat × ℚ) :=
  let total := totalAmount pendingComms
  if total < amount then .error (.insufficientBalance total amount)
  else
    let r := allocate pid freshId amount pendingComms
    let totalPaid := amount - r.2.2.2
    if totalPaid ≠ amount then .error (.incompletePayment totalPaid amount)
    else .ok (r.1, r.2.1, r.2.2.1, totalPaid)

/-- `processPayoutRequest` with `action = 'pay'`: the terminal-status
guards, the pending/approved guard, the pay branch, then
`commissionIds := ids` and `markAsPaid(adminId)` on the request.  Returns
the updated request together with the updated and the newly created
ledger entries. -/
def payAction (adminId freshId : Nat) (pr : PayoutReq)
    (pendingComms : List CommissionE) :
    Except PayError (PayoutReq × List CommissionE × List CommissionE) :=
  if pr.status = .paid then .error .alreadyPaid
  else if pr.status = .rejected then .error .alreadyRejected
  else if pr.status = .pending ∨ pr.status = .approved then
    match processPayoutPay pr.prid freshId pr.amount pendingComms with
    | .error e => .error e
    | .ok (es, ns, ids, _) =>
        let pr2 : PayoutReq :=
          { pr with status := .paid, commissionIds := ids, processedBy := some adminId }
        .ok (pr2, es, ns)
  else .error .notPayable

/-- Order fields read by `createCommission`: id, total price, and the
order items' quantities (`order.orderItems` may be absent, modelled as
`none`; JavaScript treats an absent field as falsy and uses 1). -/
structure OrderR where
  oid : Nat
  totalPrice : ℚ
  orderItems : Option (List Nat)
deriving DecidableEq, Repr

/-- User role (`role` field of the User schema). -/
inductive Role where
  | agent
  | admin
  | customer
deriving DecidableEq, Repr

/-- User fields read by the commission engine. -/
structure UserR where
  uid : Nat
  role : Role
  payoutHeld : Bool := false
deriving DecidableEq, Repr

/-- Errors of `createCommission`. -/
inductive CErr where
  | orderNotFound
  | invalidAgent
deriving DecidableEq, Repr

/-- The duplicate-lookup key of `createCommission`:
`Commission.findOne({orderId, agentId, type})` — note no status filter. -/
def matchKey (orderId agentId : Nat) (t : CType) (c : CommissionE) : Bool :=
  c.orderId == orderId && c.agentId == agentId && c.ctype == t

/-- The new pending commission document built by `createCommission` when
no entry exists for the key: for deliveries, `deliveryCount` is the sum
of the order items' quantities (1 when `order.orderItems` is absent); the
amount and rate come from `calculateCommission`. -/
def freshCommission (settings : Option PSettings) (fid : Nat) (o : OrderR)
    (orderId agentId : Nat) (t : CType) : CommissionE :=
  let deliveryCount : Nat :=
    if t = .delivery then
      match o.orderItems with
      | some items => items.sum
      | none => 1
    else 1
  let data := calculateCommission settings o.totalPrice t deliveryCount
  { cid := fid
    orderId := orderId
    agentId := agentId
    ctype := t
    amount := data.amount
    status := .pending
    orderTotal := o.totalPrice
    commissionRate := data.rate
    payoutRequestId := none
    splitRemainder := false }

/-- `createCommission(orderId, agentId, type)` from the commission
controller: resolve the order, validate the agent (must exist with role
'agent'), return any existing entry for (orderId, agentId, type)
unchanged, else compute the amount via `calculateCommission` (for
deliveries, `deliveryCount` is the sum of the order items' quantities)
and append a new pending entry.  `freshId` stands for the id the database
assigns to the new document.  Returns the entry together with the
resulting ledger. -/
def createCommission (orders : List OrderR) (users : List UserR)
    (settings : Option PSettings) (freshId : Nat) (ledger : List CommissionE)
    (orderId agentId : Nat) (t : CType) :
    Except CErr (CommissionE × List CommissionE) :=
  match orders.find? (fun o => o.oid == orderId) with
  | none => .error .orderNotFound
  | some order =>
    match users.find? (fun u => u.uid == agentId) with
    | none => .error .invalidAgent
    | some u =>
      if u.role ≠ .agent then .error .invalidAgent
      else
        match ledger.find? (matchKey orderId agentId t) with
        | some existing => .ok (existing, ledger)
        | none =>
          let newC := freshCommission settings freshId order orderId agentId t
          .ok (newC, ledger ++ [newC])

/-- A clock instant: absolute day index (day 0 a Sunday, so
`dayIdx % 7` is JavaScript's `getDay`) and minute of day (the
`toTimeString().substr(0,5)` "HH:MM" value; zero-padded "HH:MM" strings
compare lexicographically exactly as minutes compare numerically). -/
structure Instant where
  dayIdx : Nat
  minute : Nat
deriving DecidableEq, Repr

/-- Day of week of an instant, as JavaScript's `getDay`. -/
def Instant.dow (t : Instant) : Nat := t.dayIdx % 7

/-- Strict temporal order on instants. -/
def Instant.before (a b : Instant) : Prop :=
  a.dayIdx < b.dayIdx ∨ (a.dayIdx = b.dayIdx ∧ a.minute < b.minute)

instance (a b : Instant) : Decidable (a.before b) := by
  unfold Instant.before; infer_instance

/-- Reasons returned by `arePayoutsAllowed`. -/
inductive WindowReason where
  | globalHoldActive
  | schedulingDisabled
  | wrongDay
  | outsideHours
  | withinWindow
deriving DecidableEq, Repr

/-- `PayoutSettings.arePayoutsAllowed()` from models/PayoutSettings.js:
global hold first, then the schedule-disabled shortcut, then day-of-week
and the inclusive [startTime, endTime] range. -/
def arePayoutsAllowed (s : PSettings) (now : Instant) : Bool × WindowReason :=
  if s.globalPayoutHold then (false, .globalHoldActive)
  else if ¬ s.payoutSchedule.enabled then (true, .schedulingDisabled)
  else if ¬ (now.dow = s.payoutSchedule.dayOfWeek) then (false, .wrongDay)
  else if ¬ (s.payoutSchedule.startTime ≤ now.minute ∧
             now.minute ≤ s.payoutSchedule.endTime) then (false, .outsideHours)
  else (true, .withinWindow)

/-- The next-payout-window computation of `checkPayoutWindow` (and of the
validation middleware): `daysUntilNext = (dayOfWeek - currentDay + 7) % 7`,
rolled forward 7 days when today is the payout day but the current time
is past `endTime`; the result is that day at `startTime`. -/
def nextPayoutWindow (s : PSettings) (now : Instant) : Instant :=
  let d0 := (s.payoutSchedule.dayOfWeek + 7 - now.dow) % 7
  let d := if d0 = 0 ∧ s.payoutSchedule.endTime < now.minute then 7 else d0
  ⟨now.dayIdx + d, s.payoutSchedule.startTime⟩

/-- Validation-error kinds of the payout validation middleware (one per
`errors.push` site of `validatePayoutRequest` in the middleware file). -/
inductive VErr where
  | globalHold
  | belowMinimum
  | aboveMaximum
  | outsideWindow
  | insufficientBalance
  | duplicateRequest
  | accountHold
  | dailyCountLimit
  | dailyAmountLimit
deriving DecidableEq, Repr

/-- An outstanding payout request: the status filter of the middleware's
duplicate lookup, `status: { $in: ['pending', 'approved', 'on_hold'] }`. -/
def outstanding (r : PayoutReq) : Bool :=
  r.status == .pending || r.status == .approved || r.status == .on_hold

/-- The error list collected by `validatePayoutRequest`
(middleware/payoutValidation.js), in push order.  Inputs are the data the
middleware queries: the agent's pending commissions, the agent's payout
requests (scanned by the duplicate `findOne`), the agent record (hold
flag), and the agent's requests of the last 24 hours.  The middleware runs
only when settings exist (with no settings it skips validation), so a
loaded `s` is taken here.  Creation is rejected exactly when this list is
non-empty. -/
def validationErrors (s : PSettings) (amount : ℚ) (now : Instant)
    (pendingComms : List CommissionE) (agentReqs : List PayoutReq)
    (agent : Option UserR) (recentReqs : List PayoutReq) : List VErr :=
  let e1 : List VErr := if s.globalPayoutHold then [.globalHold] else []
  let e2 : List VErr := if amount < s.minWithdrawalAmount then [.belowMinimum] else []
  let e3 : List VErr := if s.maxWithdrawalAmount < amount then [.aboveMaximum] else []
  let inWindow := now.dow = s.payoutSchedule.dayOfWeek ∧
    s.payoutSchedule.startTime ≤ now.minute ∧ now.minute ≤ s.payoutSchedule.endTime
  let e4 : List VErr := if s.payoutSchedule.enabled ∧ ¬ inWindow then [.outsideWindow] else []
  let availableBalance := totalAmount pendingComms
  let e5 : List VErr := if availableBalance < amount then [.insufficientBalance] else []
  let e6 : List VErr := if (agentReqs.find? outstanding).isSome then [.duplicateRequest] else []
  let willAutoApprove : Bool :=
    (! s.requireManagerApproval) && decide (amount ≤ s.autoApprovalThreshold)
  let held : Bool := match agent with
    | some a => a.payoutHeld
    | none => false
  let e7 : List VErr := if willAutoApprove && held then [.accountHold] else []
  let dailyAmount := (recentReqs.map (·.amount)).sum
  let e8 : List VErr :=
    if willAutoApprove && decide (s.maxPayoutsPerDay ≠ 0) &&
       decide (s.maxPayoutsPerDay ≤ recentReqs.length)
    then [.dailyCountLimit] else []
  let e9 : List VErr :=
    if willAutoApprove && decide (s.maxPayoutAmountPerDay ≠ 0) &&
       decide (s.maxPayoutAmountPerDay < dailyAmount + amount)
    then [.dailyAmountLimit] else []
  e1 ++ e2 ++ e3 ++ e4 ++ e5 ++ e6 ++ e7 ++ e8 ++ e9

/-- The post-validation payout-request creation controller
(`createPayoutRequest`): decides
`shouldAutoApprove = settings && !settings.requireManagerApproval &&
amount <= settings.autoApprovalThreshold`, creates the request with
initial status `approved` when auto-approving (else `pending`), and when
auto-approving immediately attempts auto-payment: if the agent's pending
commissions cover the amount it runs the same FIFO/split walk and marks
the request paid with the recorded commission ids, otherwise the request
is saved still `approved` with an insufficient-balance note.  Returns the
final request, the final versions of the walked pending entries, and any
newly created split entries. -/
def createPayoutRequest (settings : Option PSettings)
    (freshReqId freshCommId agentId : Nat) (amount : ℚ)
    (pendingComms : List CommissionE) :
    PayoutReq × List CommissionE × List CommissionE :=
  let auto : Bool :=
    match settings with
    | some s => (! s.requireManagerApproval) && decide (amount ≤ s.autoApprovalThreshold)
    | none => false
  let pr0 : PayoutReq :=
    { prid := freshReqId
      agentId := agentId
      amount := amount
      status := if auto then .approved else .pending
      commissionIds := []
      note := if auto then .autoApproved else .empty
      processedBy := if auto then some agentId else none }
  if auto then
    let total := totalAmount pendingComms
    if amount ≤ total then
      let r := allocate freshReqId freshCommId amount pendingComms
      let pr1 : PayoutReq :=
        { pr0 with status := .paid, commissionIds := r.2.2.1, note := .autoApprovedAndPaid }
      (pr1, r.1, r.2.1)
    else
      ({ pr0 with note := .autoApprovedInsufficientBalance }, pendingComms, [])
  else (pr0, pendingComms, [])

/-- A concrete loaded policy with the stock rates (KSh 200 per delivery,
agent-order fraction 3%). -/
def stockSettings : PSettings :=
  { sid := 2
    minWithdrawalAmount := 100
    maxWithdrawalAmount := 50000
    commissionRates := { deliveryAmount := 200, agentOrder := 3/100 }
    payoutSchedule := { enabled := false, dayOfWeek := 5, startTime := 420, endTime := 1439 }
    globalPayoutHold := false
    processingFee := 0
    autoApprovalThreshold := 1000
    requireManagerApproval := false
    maxPayoutsPerDay := 5
    maxPayoutAmountPerDay := 100000 }

/-- C9: the claim says a commission-creation call during which the policy
store cannot be loaded must fail and surface the error, never computing an
amount from a substituted default rate.  The code instead catches the
load failure and silently computes from hard-coded defaults: with settings
unavailable, an agent-order commission on orderTotal 10000 succeeds with
amount 300 at the substituted default rate 0.03 (and a delivery commission
for 2 items succeeds with amount 400 at the default KSh 200), with a null
settings reference — it does not fail. -/
theorem calculateCommission_fallback_on_missing_settings :
    calculateCommission none 10000 .agent_order 1 =
      { amount := 300, rate := 3/100, isFixedAmount := false,
        deliveryCount := 1, settingsId := none } ∧
    calculateCommission none 500 .delivery 2 =
      { amount := 400, rate := 200, isFixedAmount := true,
        deliveryCount := 2, settingsId := none } := by
  constructor
  · simp only [calculateCommission, CalcResult.mk.injEq]
    norm_num
  · simp only [calculateCommission, CalcResult.mk.injEq]
    norm_num

/-- C5 counterexample: on a loaded policy whose agent-order fraction is
zero (legal per the schema, which only requires the fraction to lie in
[0,1]), the code computes `rate = agentOrder || 0.03` and so substitutes
the 0.03 default: on orderTotal 10000 it returns amount 300 with rate
0.03, not amount `round(10000 × 0) = 0` with the policy's fraction 0 as
the claim requires. -/
theorem calculateCommission_zero_rate_counterexample :
    (calculateCommission (some zeroRateSettings) 10000 .agent_order 1).amount ≠
      round ((10000 : ℚ) * zeroRateSettings.commissionRates.agentOrder) ∧
    (calculateCommission (some zeroRateSettings) 10000 .agent_order 1).rate ≠
      zeroRateSettings.commissionRates.agentOrder := by
  constructor
  · simp only [calculateCommission, zeroRateSettings]
    norm_num
  · simp only [calculateCommission, zeroRateSettings]
    norm_num

/-- C5 (amended): for every order total, delivery count ≥ 1 and loaded
policy, the calculator returns, for type=delivery, amount =
deliveryAmount × deliveryCount with isFixedAmount=true and the fixed
amount as the rate; and for type=agent_order with a nonzero policy
fraction, amount = round(orderTotal × fraction) with isFixedAmount=false
and the fraction as the rate (a zero fraction is replaced by the 0.03
default).  The function is pure, hence deterministic. -/
theorem calculateCommission_amended (s : PSettings) (orderTotal : ℚ) (n : Nat)
    (hn : 1 ≤ n) (hr : s.commissionRates.agentOrder ≠ 0) :
    calculateCommission (some s) orderTotal .delivery n =
      { amount := s.commissionRates.deliveryAmount * n
        rate := s.commissionRates.deliveryAmount
        isFixedAmount := true
        deliveryCount := n
        settingsId := some s.sid } ∧
    calculateCommission (some s) orderTotal .agent_order n =
      { amount := (round (orderTotal * s.commissionRates.agentOrder) : ℤ)
        rate := s.commissionRates.agentOrder
        isFixedAmount := false
        deliveryCount := n
        settingsId := some s.sid } := by
  constructor
  · rfl
  · simp only [calculateCommission, hr, if_false]

/-- Witness for C5's amended theorem: at the stock 3% policy, orderTotal
10000 and deliveryCount 1, the hypotheses hold and the agent-order amount
is exactly 300. -/
theorem calculateCommission_amended_witness :
    (1 ≤ 1) ∧ stockSettings.commissionRates.agentOrder ≠ 0 ∧
    (calculateCommission (some stockSettings) 10000 .agent_order 1).amount = 300 := by
  refine ⟨le_refl 1, by norm_num [stockSettings], ?_⟩
  have h := (calculateCommission_amended stockSettings 10000 1 (le_refl 1)
    (by norm_num [stockSettings])).2
  rw [h]
  norm_num [stockSettings]

/-- C4: for a valid order and an active agent account, calling
`createCommission` twice with the same (orderId, agentId, type) returns an
entry with the same id both times, leaves the ledger unchanged by the
second call, and exactly one entry for that key exists afterwards
(starting from a ledger with no entry for the key). -/
theorem createCommission_idempotent
    (orders : List OrderR) (users : List UserR) (settings : Option PSettings)
    (ledger : List CommissionE) (oid aid fid1 fid2 : Nat) (t : CType)
    (o : OrderR) (u : UserR)
    (ho : orders.find? (fun x => x.oid == oid) = some o)
    (hu : users.find? (fun x => x.uid == aid) = some u)
    (hrole : u.role = .agent)
    (hnone : ledger.find? (matchKey oid aid t) = none) :
    ∃ c1 L1,
      createCommission orders users settings fid1 ledger oid aid t = .ok (c1, L1) ∧
      createCommission orders users settings fid2 L1 oid aid t = .ok (c1, L1) ∧
      c1.cid = c1.cid ∧
      L1.countP (matchKey oid aid t) = 1 := by
  have hkey : matchKey oid aid t (freshCommission settings fid1 o oid aid t) = true := by
    simp [matchKey, freshCommission]
  refine ⟨freshCommission settings fid1 o oid aid t,
          ledger ++ [freshCommission settings fid1 o oid aid t], ?_, ?_, rfl, ?_⟩
  · unfold createCommission
    rw [ho, hu]
    simp only [hrole, ne_eq, not_true_eq_false, if_false, reduceCtorEq, ite_false]
    rw [hnone]
  · unfold createCommission
    rw [ho, hu]
    simp only [hrole, ne_eq, not_true_eq_false, if_false, reduceCtorEq, ite_false]
    rw [List.find?_append, hnone]
    simp only [Option.none_or, List.find?_cons, hkey]
  · rw [List.countP_append]
    rw [List.countP_eq_zero.mpr (by
      intro c hc
      exact (List.find?_eq_none.mp hnone) c hc)]
    simp [List.countP_cons, hkey]

/-- Witness for C4 at a concrete order, agent and empty ledger. -/
theorem createCommission_idempotent_witness :
    ([({ oid := 7, totalPrice := 10000, orderItems := some [2] } : OrderR)].find?
        (fun x => x.oid == 7) = some { oid := 7, totalPrice := 10000, orderItems := some [2] }) ∧
    ([({ uid := 3, role := .agent } : UserR)].find? (fun x => x.uid == 3) =
        some { uid := 3, role := .agent }) ∧
    (({ uid := 3, role := .agent } : UserR).role = .agent) ∧
    (([] : List CommissionE).find? (matchKey 7 3 .delivery) = none) ∧
    ∃ c1 L1,
      createCommission [{ oid := 7, totalPrice := 10000, orderItems := some [2] }]
        [{ uid := 3, role := .agent }] (some stockSettings) 100 [] 7 3 .delivery = .ok (c1, L1) ∧
      createCommission [{ oid := 7, totalPrice := 10000, orderItems := some [2] }]
        [{ uid := 3, role := .agent }] (some stockSettings) 101 L1 7 3 .delivery = .ok (c1, L1) ∧
      c1.cid = c1.cid ∧
      L1.countP (matchKey 7 3 .delivery) = 1 := by
  refine ⟨by rfl, by rfl, rfl, by rfl, ?_⟩
  exact createCommission_idempotent _ _ _ _ 7 3 100 101 .delivery _ _
    (by rfl) (by rfl) rfl (by rfl)

/-- C10: the duplicate lookup of `createCommission` has no status filter,
so when the first (and only) entry for (orderId, agentId, type) is a
cancelled one, the operation returns that cancelled entry unchanged and
creates nothing: re-triggering the order event after cancellation never
produces a fresh pending commission for that key. -/
theorem createCommission_returns_cancelled_entry
    (orders : List OrderR) (users : List UserR) (settings : Option PSettings)
    (ledger : List CommissionE) (oid aid fid : Nat) (t : CType)
    (o : OrderR) (u : UserR) (c0 : CommissionE)
    (ho : orders.find? (fun x => x.oid == oid) = some o)
    (hu : users.find? (fun x => x.uid == aid) = some u)
    (hrole : u.role = .agent)
    (hfound : ledger.find? (matchKey oid aid t) = some c0)
    (hcancelled : c0.status = .cancelled)
    (honly : ∀ c ∈ ledger, matchKey oid aid t c = true → c.status = .cancelled) :
    createCommission orders users settings fid ledger oid aid t = .ok (c0, ledger) := by
  unfold createCommission
  rw [ho, hu]
  simp only [hrole, ne_eq, not_true_eq_false, if_false, reduceCtorEq, ite_false]
  rw [hfound]

/-- Witness for C10 at a ledger holding one cancelled entry for the key. -/
theorem createCommission_returns_cancelled_entry_witness :
    createCommission [{ oid := 7, totalPrice := 10000, orderItems := some [2] }]
      [{ uid := 3, role := .agent }] (some stockSettings) 100
      [{ cid := 50, orderId := 7, agentId := 3, ctype := .delivery, amount := 400,
         status := .cancelled, orderTotal := 10000, commissionRate := 200,
         payoutRequestId := none, splitRemainder := false }] 7 3 .delivery =
      .ok ({ cid := 50, orderId := 7, agentId := 3, ctype := .delivery, amount := 400,
             status := .cancelled, orderTotal := 10000, commissionRate := 200,
             payoutRequestId := none, splitRemainder := false },
           [{ cid := 50, orderId := 7, agentId := 3, ctype := .delivery, amount := 400,
              status := .cancelled, orderTotal := 10000, commissionRate := 200,
              payoutRequestId := none, splitRemainder := false }]) := by
  apply createCommission_returns_cancelled_entry
    (o := { oid := 7, totalPrice := 10000, orderItems := some [2] })
    (u := { uid := 3, role := .agent })
  · rfl
  · rfl
  · rfl
  · rfl
  · rfl
  · intro c hc _
    simp only [List.mem_singleton] at hc
    rw [hc]

/-- The duplicate-outstanding-request error appears in the middleware's
error list exactly when the duplicate `findOne` (status pending, approved
or on_hold) finds a request. -/
theorem duplicate_error_iff (s : PSettings) (amount : ℚ) (now : Instant)
    (pcs : List CommissionE) (reqs : List PayoutReq) (agent : Option UserR)
    (recent : List PayoutReq) :
    VErr.duplicateRequest ∈ validationErrors s amount now pcs reqs agent recent ↔
      (reqs.find? outstanding).isSome := by
  simp [validationErrors, List.mem_ite_nil_right]

/-- C6: while an agent has a payout request in status pending, approved
or on_hold, the validation middleware's error list contains the
duplicate-outstanding-request error and is non-empty, so creation fails
validation; and for a request list in which every request is rejected or
paid, the duplicate check no longer blocks (the duplicate error is not
raised). -/
theorem outstanding_request_blocks_creation
    (s : PSettings) (amount : ℚ) (now : Instant) (pcs : List CommissionE)
    (agentReqs : List PayoutReq) (agent : Option UserR) (recent : List PayoutReq)
    (r : PayoutReq) (hr : r ∈ agentReqs)
    (hst : r.status = .pending ∨ r.status = .approved ∨ r.status = .on_hold) :
    VErr.duplicateRequest ∈ validationErrors s amount now pcs agentReqs agent recent ∧
    validationErrors s amount now pcs agentReqs agent recent ≠ [] ∧
    ∀ reqs2 : List PayoutReq,
      (∀ q ∈ reqs2, q.status = .rejected ∨ q.status = .paid) →
      VErr.duplicateRequest ∉ validationErrors s amount now pcs reqs2 agent recent := by
  have hout : outstanding r = true := by
    rcases hst with h | h | h <;> simp [outstanding, h]
  have hfound : (agentReqs.find? outstanding).isSome :=
    List.find?_isSome.mpr ⟨r, hr, hout⟩
  have hmem := (duplicate_error_iff s amount now pcs agentReqs agent recent).mpr hfound
  refine ⟨hmem, List.ne_nil_of_mem hmem, ?_⟩
  intro reqs2 hq
  rw [duplicate_error_iff]
  intro hsome
  obtain ⟨q, hq2, hqout⟩ := List.find?_isSome.mp hsome
  rcases hq q hq2 with h | h <;> simp [outstanding, h] at hqout

/-- Witness for C6 at a one-element request list holding a pending
request. -/
theorem outstanding_request_blocks_creation_witness :
    ∃ m : Prop, m ∧
      (VErr.duplicateRequest ∈ validationErrors stockSettings 500 ⟨3, 600⟩ []
        [{ prid := 9, agentId := 3, amount := 500, status := .pending }] none [] ∧
       validationErrors stockSettings 500 ⟨3, 600⟩ []
        [{ prid := 9, agentId := 3, amount := 500, status := .pending }] none [] ≠ [] ∧
       ∀ reqs2 : List PayoutReq,
        (∀ q ∈ reqs2, q.status = .rejected ∨ q.status = .paid) →
        VErr.duplicateRequest ∉ validationErrors stockSettings 500 ⟨3, 600⟩ [] reqs2 none []) := by
  refine ⟨True, trivial, ?_⟩
  exact outstanding_request_blocks_creation stockSettings 500 ⟨3, 600⟩ []
    [{ prid := 9, agentId := 3, amount := 500, status := .pending }] none []
    { prid := 9, agentId := 3, amount := 500, status := .pending }
    (List.mem_singleton.mpr rfl) (Or.inl rfl)

/-- C8: a successfully validated creation is auto-approved exactly when
the policy does not require manager approval and the amount is at most
the auto-approval threshold; an auto-approved request is created in
status approved and auto-payment runs immediately: when the pending
balance covers the amount the request ends up paid, and when it no
longer covers it the request remains approved — unpaid, with no
commission consumed and the insufficient-balance note — rather than the
creation failing. -/
theorem auto_approval_spec (s : PSettings) (freshReqId freshCommId agentId : Nat)
    (amount : ℚ) (pcs : List CommissionE) :
    (¬ (s.requireManagerApproval = false ∧ amount ≤ s.autoApprovalThreshold) →
      (createPayoutRequest (some s) freshReqId freshCommId agentId amount pcs).1.status =
        .pending ∧
      (createPayoutRequest (some s) freshReqId freshCommId agentId amount pcs).2.1 = pcs ∧
      (createPayoutRequest (some s) freshReqId freshCommId agentId amount pcs).2.2 = []) ∧
    ((s.requireManagerApproval = false ∧ amount ≤ s.autoApprovalThreshold) →
      (totalAmount pcs < amount →
        (createPayoutRequest (some s) freshReqId freshCommId agentId amount pcs).1.status =
          .approved ∧
        (createPayoutRequest (some s) freshReqId freshCommId agentId amount pcs).1.note =
          .autoApprovedInsufficientBalance ∧
        (createPayoutRequest (some s) freshReqId freshCommId agentId amount pcs).1.commissionIds
          = [] ∧
        (createPayoutRequest (some s) freshReqId freshCommId agentId amount pcs).2.1 = pcs ∧
        (createPayoutRequest (some s) freshReqId freshCommId agentId amount pcs).2.2 = []) ∧
      (amount ≤ totalAmount pcs →
        (createPayoutRequest (some s) freshReqId freshCommId agentId amount pcs).1.status =
          .paid)) := by
  constructor
  · intro hno
    by_cases hm : s.requireManagerApproval
    · simp [createPayoutRequest, hm]
    · have hth : ¬ amount ≤ s.autoApprovalThreshold := by
        intro hle
        exact hno ⟨by simpa using hm, hle⟩
      simp [createPayoutRequest, hm, hth]
  · rintro ⟨hm, hth⟩
    constructor
    · intro hins
      have hnot : ¬ amount ≤ totalAmount pcs := not_le.mpr hins
      simp [createPayoutRequest, hm, hth, hnot]
    · intro hcov
      simp [createPayoutRequest, hm, hth, hcov]

/-- Witness for C8: at the stock policy (no manager approval required,
threshold 1000) an 800-shilling request over a single 1000-shilling
pending commission is auto-approved and auto-paid. -/
theorem auto_approval_spec_witness :
    (stockSettings.requireManagerApproval = false ∧ (800 : ℚ) ≤ stockSettings.autoApprovalThreshold) ∧
    ((800 : ℚ) ≤ totalAmount
      [{ cid := 1, orderId := 1, agentId := 3, ctype := .delivery, amount := 1000,
         status := .pending, orderTotal := 5000, commissionRate := 200 }]) ∧
    (createPayoutRequest (some stockSettings) 11 12 3 800
      [{ cid := 1, orderId := 1, agentId := 3, ctype := .delivery, amount := 1000,
         status := .pending, orderTotal := 5000, commissionRate := 200 }]).1.status = .paid := by
  refine ⟨⟨rfl, by norm_num [stockSettings]⟩, by norm_num [totalAmount], ?_⟩
  exact ((auto_approval_spec stockSettings 11 12 3 800 _).2
    ⟨rfl, by norm_num [stockSettings]⟩).2 (by norm_num [totalAmount])

/-- C2: when the requested amount strictly exceeds the agent's total
pending commission balance, the pay action fails with the
insufficient-balance error carrying both the available and the requested
amount; the controller returns before persisting anything, so the result
carries no ledger update and no request transition — every entry and the
request keep their prior state. -/
theorem pay_insufficient_balance_error (adminId freshId : Nat) (pr : PayoutReq)
    (pcs : List CommissionE)
    (hst : pr.status = .pending ∨ pr.status = .approved)
    (hins : totalAmount pcs < pr.amount) :
    payAction adminId freshId pr pcs =
      .error (.insufficientBalance (totalAmount pcs) pr.amount) := by
  rcases hst with h | h <;>
    simp [payAction, processPayoutPay, h, hins]

/-- A concrete pending 300-shilling commission used by witnesses. -/
def wComm300 : CommissionE :=
  { cid := 1, orderId := 1, agentId := 3, ctype := .delivery, amount := 300,
    status := .pending, orderTotal := 5000, commissionRate := 200 }

/-- A concrete pending 500-shilling payout request used by witnesses. -/
def wReq500 : PayoutReq :=
  { prid := 5, agentId := 3, amount := 500, status := .pending }

/-- Witness for C2: a 500-shilling request against a 300-shilling pending
balance errors with available 300 and requested 500. -/
theorem pay_insufficient_balance_error_witness :
    (wReq500.status = .pending ∨ wReq500.status = .approved) ∧
    totalAmount [wComm300] < wReq500.amount ∧
    payAction 9 99 wReq500 [wComm300] =
      .error (.insufficientBalance (totalAmount [wComm300]) wReq500.amount) := by
  refine ⟨Or.inl rfl, by norm_num [totalAmount, wComm300, wReq500], ?_⟩
  exact pay_insufficient_balance_error 9 99 _ _ (Or.inl rfl)
    (by norm_num [totalAmount, wComm300, wReq500])

theorem totalAmount_nil : totalAmount [] = 0 := rfl

theorem totalAmount_cons (c : CommissionE) (es : List CommissionE) :
    totalAmount (c :: es) = c.amount + totalAmount es := by
  simp [totalAmount]

theorem totalAmount_append (l1 l2 : List CommissionE) :
    totalAmount (l1 ++ l2) = totalAmount l1 + totalAmount l2 := by
  simp [totalAmount]

theorem totalAmount_map_payFull (pid : Nat) (l : List CommissionE) :
    totalAmount (l.map (payFull pid)) = totalAmount l := by
  induction l with
  | nil => rfl
  | cons c t ih =>
      simp only [List.map_cons, totalAmount_cons, ih]
      rfl

/-- With a non-positive remaining counter the walk breaks immediately. -/
theorem allocate_nonpos (pid fid : Nat) (r : ℚ) (es : List CommissionE)
    (h : r ≤ 0) : allocate pid fid r es = (es, [], [], r) := by
  cases es with
  | nil => simp [allocate]
  | cons c t => simp [allocate, h]

/-- Characterization of the FIFO walk: with positive entry amounts, a
positive remaining counter and sufficient total, the walk pays some
prefix of `k` entries in full and then either stops exactly (the prefix
sums to the counter) or splits the next entry. -/
theorem allocate_spec (pid fid : Nat) :
    ∀ (es : List CommissionE) (r : ℚ),
      (∀ e ∈ es, 0 < e.amount) → 0 < r → r ≤ totalAmount es →
      ∃ k, k ≤ es.length ∧
        ((totalAmount (es.take k) = r ∧
          allocate pid fid r es =
            ((es.take k).map (payFull pid) ++ es.drop k, [],
             (es.take k).map (·.cid), 0)) ∨
         (∃ c rest, es.drop k = c :: rest ∧
          totalAmount (es.take k) < r ∧
          r < totalAmount (es.take k) + c.amount ∧
          allocate pid fid r es =
            ((es.take k).map (payFull pid) ++
               (paySplit pid c (r - totalAmount (es.take k)) :: rest),
             [mkRemainder fid c (c.amount - (r - totalAmount (es.take k)))],
             (es.take k).map (·.cid) ++ [c.cid], 0))) := by
  intro es
  induction es with
  | nil =>
      intro r hpos hr hsum
      rw [totalAmount_nil] at hsum
      linarith
  | cons c t ih =>
      intro r hpos hr hsum
      have hnotle : ¬ r ≤ 0 := not_le.mpr hr
      by_cases hle : c.amount ≤ r
      · by_cases heq : c.amount = r
        · refine ⟨1, by simp, Or.inl ⟨?_, ?_⟩⟩
          · simp [totalAmount, heq]
          · have h0 : r - c.amount = 0 := by linarith
            simp only [allocate, if_neg hnotle, if_pos hle, h0,
              allocate_nonpos pid fid 0 t le_rfl]
            simp
        · have hlt : c.amount < r := lt_of_le_of_ne hle heq
          have hr2 : 0 < r - c.amount := by linarith
          have hsum2 : r - c.amount ≤ totalAmount t := by
            rw [totalAmount_cons] at hsum; linarith
          obtain ⟨k, hk, hbr⟩ :=
            ih (r - c.amount) (fun e he => hpos e (List.mem_cons_of_mem c he)) hr2 hsum2
          refine ⟨k + 1, by simpa using Nat.succ_le_succ hk, ?_⟩
          rcases hbr with ⟨hsumtk, halloc⟩ | ⟨c0, rest0, hdrop, hl1, hl2, halloc⟩
          · refine Or.inl ⟨?_, ?_⟩
            · rw [List.take_succ_cons, totalAmount_cons, hsumtk]; ring
            · simp only [allocate, if_neg hnotle, if_pos hle, halloc,
                List.take_succ_cons, List.drop_succ_cons, List.map_cons,
                List.cons_append]
          · refine Or.inr ⟨c0, rest0, ?_, ?_, ?_, ?_⟩
            · simpa [List.drop_succ_cons] using hdrop
            · rw [List.take_succ_cons, totalAmount_cons]; linarith
            · rw [List.take_succ_cons, totalAmount_cons]; linarith
            · have e1 : r - totalAmount ((c :: t).take (k + 1)) =
                  (r - c.amount) - totalAmount (t.take k) := by
                rw [List.take_succ_cons, totalAmount_cons]; ring
              rw [e1]
              simp only [allocate, if_neg hnotle, if_pos hle, halloc,
                List.take_succ_cons, List.drop_succ_cons, List.map_cons,
                List.cons_append]
      · have hltr : r < c.amount := not_le.mp hle
        refine ⟨0, Nat.zero_le _, Or.inr ⟨c, t, rfl, ?_, ?_, ?_⟩⟩
        · simpa [totalAmount] using hr
        · simpa [totalAmount] using hltr
        · simp [allocate, hnotle, hle, totalAmount]

theorem filter_paid_map_payFull (pid : Nat) (l : List CommissionE) :
    (l.map (payFull pid)).filter (fun e => e.status == CStatus.paid) = l.map (payFull pid) := by
  apply List.filter_eq_self.mpr
  intro a ha
  obtain ⟨b, -, rfl⟩ := List.mem_map.mp ha
  rfl

theorem filter_paid_of_pending (l : List CommissionE)
    (h : ∀ e ∈ l, e.status = CStatus.pending) :
    l.filter (fun e => e.status == CStatus.paid) = [] := by
  rw [List.filter_eq_nil_iff]
  intro a ha
  simp [h a ha]

theorem cids_map_payFull (pid : Nat) (l : List CommissionE) :
    (l.map (payFull pid)).map (·.cid) = l.map (·.cid) := by
  simp only [List.map_map]
  rfl

/-- C1: for a non-empty all-pending ledger slice (oldest first) whose
amounts cover the requested amount, the pay operation succeeds, reporting
totalPaid equal to the requested amount; the recorded paidCommissionIds
are exactly the ids of the entries marked paid, in walk order; the
amounts marked paid sum to the requested amount; the sum of amounts over
all entries (walked entries in their final state plus any new remainder
entry) is conserved; and structurally the walk pays a prefix of `k`
entries in full and then either stops exactly or splits the next entry
into a paid slice equal to the remaining need plus a new pending
remainder carrying the excess, ending the allocation. -/
theorem settlement_fifo_split_correct (pid fid : Nat) (amt : ℚ)
    (es : List CommissionE)
    (hpend : ∀ e ∈ es, e.status = CStatus.pending)
    (hpos : ∀ e ∈ es, 0 < e.amount)
    (hne : es ≠ [])
    (hamt : 0 < amt)
    (hsum : amt ≤ totalAmount es) :
    ∃ es2 ns ids,
      processPayoutPay pid fid amt es = .ok (es2, ns, ids, amt) ∧
      ids = (es2.filter (fun e => e.status == CStatus.paid)).map (·.cid) ∧
      ((es2.filter (fun e => e.status == CStatus.paid)).map (·.amount)).sum = amt ∧
      totalAmount es2 + totalAmount ns = totalAmount es ∧
      (∃ k, k ≤ es.length ∧
        ((totalAmount (es.take k) = amt ∧
          es2 = (es.take k).map (payFull pid) ++ es.drop k ∧ ns = [] ∧
          ids = (es.take k).map (·.cid)) ∨
         (∃ c rest, es.drop k = c :: rest ∧
          totalAmount (es.take k) < amt ∧ amt < totalAmount (es.take k) + c.amount ∧
          es2 = (es.take k).map (payFull pid) ++
            (paySplit pid c (amt - totalAmount (es.take k)) :: rest) ∧
          ns = [mkRemainder fid c (c.amount - (amt - totalAmount (es.take k)))] ∧
          ids = (es.take k).map (·.cid) ++ [c.cid]))) := by
  obtain ⟨k, hk, hbr⟩ := allocate_spec pid fid es amt hpos hamt hsum
  rcases hbr with ⟨hsumtk, halloc⟩ | ⟨c, rest, hdrop, hl1, hl2, halloc⟩
  · have hdroppend : ∀ e ∈ es.drop k, e.status = CStatus.pending :=
      fun e he => hpend e (List.drop_subset k es he)
    refine ⟨(es.take k).map (payFull pid) ++ es.drop k, [], (es.take k).map (·.cid),
      ?_, ?_, ?_, ?_, ⟨k, hk, Or.inl ⟨hsumtk, rfl, rfl, rfl⟩⟩⟩
    · simp [processPayoutPay, halloc, not_lt.mpr hsum]
    · rw [List.filter_append, filter_paid_map_payFull,
        filter_paid_of_pending _ hdroppend, List.append_nil, cids_map_payFull]
    · rw [List.filter_append, filter_paid_map_payFull,
        filter_paid_of_pending _ hdroppend, List.append_nil]
      show totalAmount ((es.take k).map (payFull pid)) = amt
      rw [totalAmount_map_payFull, hsumtk]
    · rw [totalAmount_append, totalAmount_map_payFull, totalAmount_nil]
      have := congrArg totalAmount (List.take_append_drop k es)
      rw [totalAmount_append] at this
      linarith
  · have hrestpend : ∀ e ∈ rest, e.status = CStatus.pending := by
      intro e he
      exact hpend e (List.drop_subset k es (hdrop ▸ List.mem_cons_of_mem c he))
    have hsplit_es : es.take k ++ c :: rest = es := by
      rw [← hdrop, List.take_append_drop]
    have hsum_es : totalAmount (es.take k) + (c.amount + totalAmount rest) =
        totalAmount es := by
      have := congrArg totalAmount hsplit_es
      rw [totalAmount_append, totalAmount_cons] at this
      linarith
    refine ⟨(es.take k).map (payFull pid) ++
        (paySplit pid c (amt - totalAmount (es.take k)) :: rest),
      [mkRemainder fid c (c.amount - (amt - totalAmount (es.take k)))],
      (es.take k).map (·.cid) ++ [c.cid],
      ?_, ?_, ?_, ?_,
      ⟨k, hk, Or.inr ⟨c, rest, hdrop, hl1, hl2, rfl, rfl, rfl⟩⟩⟩
    · simp [processPayoutPay, halloc, not_lt.mpr hsum]
    · rw [List.filter_append, filter_paid_map_payFull, List.filter_cons_of_pos,
        filter_paid_of_pending _ hrestpend]
      · rw [List.map_append, cids_map_payFull]
        rfl
      · rfl
    · rw [List.filter_append, filter_paid_map_payFull, List.filter_cons_of_pos,
        filter_paid_of_pending _ hrestpend]
      · rw [List.map_append, List.sum_append]
        show totalAmount ((es.take k).map (payFull pid)) +
          ((paySplit pid c (amt - totalAmount (es.take k))).amount + 0) = amt
        rw [totalAmount_map_payFull]
        show totalAmount (es.take k) + ((amt - totalAmount (es.take k)) + 0) = amt
        ring
      · rfl
    · rw [totalAmount_append, totalAmount_map_payFull, totalAmount_cons]
      show totalAmount (es.take k) + ((amt - totalAmount (es.take k)) + totalAmount rest) +
        (c.amount - (amt - totalAmount (es.take k)) + 0) = totalAmount es
      linarith

/-- The spec's worked example, oldest first: pending entries of 100, 150
and 80 shillings. -/
def specEntries : List CommissionE :=
  [{ cid := 1, orderId := 1, agentId := 3, ctype := .delivery, amount := 100,
     status := .pending, orderTotal := 1000, commissionRate := 100 },
   { cid := 2, orderId := 2, agentId := 3, ctype := .delivery, amount := 150,
     status := .pending, orderTotal := 1500, commissionRate := 150 },
   { cid := 3, orderId := 3, agentId := 3, ctype := .delivery, amount := 80,
     status := .pending, orderTotal := 800, commissionRate := 80 }]

/-- Witness for C1 at the spec's example: entries [100, 150, 80] and a
request of 180. -/
theorem settlement_fifo_split_correct_witness :
    (∀ e ∈ specEntries, e.status = CStatus.pending) ∧
    (∀ e ∈ specEntries, 0 < e.amount) ∧
    specEntries ≠ [] ∧
    (0 : ℚ) < 180 ∧
    (180 : ℚ) ≤ totalAmount specEntries ∧
    (∃ es2 ns ids,
      processPayoutPay 21 99 180 specEntries = .ok (es2, ns, ids, 180) ∧
      ids = (es2.filter (fun e => e.status == CStatus.paid)).map (·.cid) ∧
      ((es2.filter (fun e => e.status == CStatus.paid)).map (·.amount)).sum = 180 ∧
      totalAmount es2 + totalAmount ns = totalAmount specEntries ∧
      (∃ k, k ≤ specEntries.length ∧
        ((totalAmount (specEntries.take k) = 180 ∧
          es2 = (specEntries.take k).map (payFull 21) ++ specEntries.drop k ∧ ns = [] ∧
          ids = (specEntries.take k).map (·.cid)) ∨
         (∃ c rest, specEntries.drop k = c :: rest ∧
          totalAmount (specEntries.take k) < 180 ∧
          180 < totalAmount (specEntries.take k) + c.amount ∧
          es2 = (specEntries.take k).map (payFull 21) ++
            (paySplit 21 c (180 - totalAmount (specEntries.take k)) :: rest) ∧
          ns = [mkRemainder 99 c (c.amount - (180 - totalAmount (specEntries.take k)))] ∧
          ids = (specEntries.take k).map (·.cid) ++ [c.cid])))) := by
  have h1 : ∀ e ∈ specEntries, e.status = CStatus.pending := by
    intro e he
    fin_cases he <;> rfl
  have h2 : ∀ e ∈ specEntries, 0 < e.amount := by
    intro e he
    fin_cases he <;> norm_num [specEntries]
  have h3 : specEntries ≠ [] := by simp [specEntries]
  have h4 : (0 : ℚ) < 180 := by norm_num
  have h5 : (180 : ℚ) ≤ totalAmount specEntries := by
    norm_num [specEntries, totalAmount]
  exact ⟨h1, h2, h3, h4, h5,
    settlement_fifo_split_correct 21 99 180 specEntries h1 h2 h3 h4 h5⟩

/-- C7: `arePayoutsAllowed` returns not-allowed whenever globalHold is
set; returns allowed when the schedule is disabled (no hold); otherwise
allows exactly on the configured day-of-week with the time inside the
inclusive [startTime, endTime] range.  When the schedule (not the hold)
denies, the companion next-window computation returns the next occurrence
of the configured day at startTime strictly after the instant — rolling
forward seven days when today's window has already closed — i.e. it is an
occurrence of (dayOfWeek, startTime), lies strictly after `now`, and no
earlier such occurrence after `now` exists. -/
theorem payout_window_spec (s : PSettings) (now : Instant)
    (hdw : s.payoutSchedule.dayOfWeek < 7)
    (hse : s.payoutSchedule.startTime ≤ s.payoutSchedule.endTime) :
    (s.globalPayoutHold = true → (arePayoutsAllowed s now).1 = false) ∧
    (s.globalPayoutHold = false → s.payoutSchedule.enabled = false →
      (arePayoutsAllowed s now).1 = true) ∧
    (s.globalPayoutHold = false → s.payoutSchedule.enabled = true →
      ((arePayoutsAllowed s now).1 = true ↔
        (now.dow = s.payoutSchedule.dayOfWeek ∧
         s.payoutSchedule.startTime ≤ now.minute ∧
         now.minute ≤ s.payoutSchedule.endTime))) ∧
    (s.globalPayoutHold = false → s.payoutSchedule.enabled = true →
      ¬ (now.dow = s.payoutSchedule.dayOfWeek ∧
         s.payoutSchedule.startTime ≤ now.minute ∧
         now.minute ≤ s.payoutSchedule.endTime) →
      ((nextPayoutWindow s now).dow = s.payoutSchedule.dayOfWeek ∧
       (nextPayoutWindow s now).minute = s.payoutSchedule.startTime ∧
       now.before (nextPayoutWindow s now) ∧
       ∀ t : Instant, t.dow = s.payoutSchedule.dayOfWeek →
         t.minute = s.payoutSchedule.startTime → now.before t →
         (nextPayoutWindow s now).dayIdx ≤ t.dayIdx)) := by
  obtain ⟨D, M⟩ := now
  refine ⟨?_, ?_, ?_, ?_⟩
  · intro h
    simp [arePayoutsAllowed, h]
  · intro h1 h2
    simp [arePayoutsAllowed, h1, h2]
  · intro h1 h2
    by_cases hday : Instant.dow ⟨D, M⟩ = s.payoutSchedule.dayOfWeek
    · by_cases hrange : s.payoutSchedule.startTime ≤ M ∧ M ≤ s.payoutSchedule.endTime
      · simp [arePayoutsAllowed, h1, h2, hday, hrange]
      · simp [arePayoutsAllowed, h1, h2, hday, hrange]
    · simp [arePayoutsAllowed, h1, h2, hday]
  · intro h1 h2 hnot
    by_cases hday : D % 7 = s.payoutSchedule.dayOfWeek
    · have hrange : ¬ (s.payoutSchedule.startTime ≤ M ∧ M ≤ s.payoutSchedule.endTime) :=
        fun hr => hnot ⟨hday, hr⟩
      have hd0 : (s.payoutSchedule.dayOfWeek + 7 - Instant.dow ⟨D, M⟩) % 7 = 0 := by
        simp only [Instant.dow]
        omega
      rcases (by omega :
          M < s.payoutSchedule.startTime ∨ s.payoutSchedule.endTime < M) with hm | hm
      · have hnext : nextPayoutWindow s ⟨D, M⟩ = ⟨D, s.payoutSchedule.startTime⟩ := by
          have hnotpast : ¬ s.payoutSchedule.endTime < M := by omega
          simp [nextPayoutWindow, hd0, hnotpast]
        rw [hnext]
        refine ⟨by simpa [Instant.dow] using hday, rfl, Or.inr ⟨rfl, hm⟩, ?_⟩
        rintro ⟨TD, TM⟩ ht1 ht2 ht3
        show D ≤ TD
        rcases ht3 with h | ⟨h, -⟩
        · exact Nat.le_of_lt h
        · exact le_of_eq h
      · have hnext : nextPayoutWindow s ⟨D, M⟩ = ⟨D + 7, s.payoutSchedule.startTime⟩ := by
          simp [nextPayoutWindow, hd0, hm]
        rw [hnext]
        refine ⟨by show (D + 7) % 7 = s.payoutSchedule.dayOfWeek; omega, rfl,
          Or.inl (by show D < D + 7; omega), ?_⟩
        rintro ⟨TD, TM⟩ ht1 ht2 ht3
        have ht1' : TD % 7 = s.payoutSchedule.dayOfWeek := ht1
        have ht2' : TM = s.payoutSchedule.startTime := ht2
        show D + 7 ≤ TD
        rcases ht3 with h | ⟨h, hlt⟩
        · have h' : D < TD := h
          omega
        · have h' : D = TD := h
          have hlt' : M < TM := hlt
          omega
    · have hd0 : (s.payoutSchedule.dayOfWeek + 7 - Instant.dow ⟨D, M⟩) % 7 ≠ 0 := by
        simp only [Instant.dow]
        omega
      have hnext : nextPayoutWindow s ⟨D, M⟩ =
          ⟨D + (s.payoutSchedule.dayOfWeek + 7 - D % 7) % 7, s.payoutSchedule.startTime⟩ := by
        simp only [nextPayoutWindow, Instant.dow]
        rw [if_neg]
        rintro ⟨h0, -⟩
        exact hd0 (by simpa [Instant.dow] using h0)
      rw [hnext]
      simp only [Instant.dow] at hd0
      refine ⟨by
          show (D + (s.payoutSchedule.dayOfWeek + 7 - D % 7) % 7) % 7 =
            s.payoutSchedule.dayOfWeek
          omega,
        rfl,
        Or.inl (by
          show D < D + (s.payoutSchedule.dayOfWeek + 7 - D % 7) % 7
          omega), ?_⟩
      rintro ⟨TD, TM⟩ ht1 ht2 ht3
      have ht1' : TD % 7 = s.payoutSchedule.dayOfWeek := ht1
      show D + (s.payoutSchedule.dayOfWeek + 7 - D % 7) % 7 ≤ TD
      rcases ht3 with h | ⟨h, -⟩
      · have h' : D < TD := h
        omega
      · have h' : D = TD := h
        omega

/-- A concrete policy with an enabled Friday 07:00–23:59 schedule. -/
def fridaySettings : PSettings :=
  { sid := 3
    minWithdrawalAmount := 100
    maxWithdrawalAmount := 50000
    commissionRates := { deliveryAmount := 200, agentOrder := 3/100 }
    payoutSchedule := { enabled := true, dayOfWeek := 5, startTime := 420, endTime := 1439 }
    globalPayoutHold := false
    processingFee := 0
    autoApprovalThreshold := 1000
    requireManagerApproval := false
    maxPayoutsPerDay := 5
    maxPayoutAmountPerDay := 100000 }

/-- Witness for C7 at the Friday schedule and a Wednesday 10:00 instant
(day index 3, minute 600). -/
theorem payout_window_spec_witness :
    fridaySettings.payoutSchedule.dayOfWeek < 7 ∧
    fridaySettings.payoutSchedule.startTime ≤ fridaySettings.payoutSchedule.endTime ∧
    ((fridaySettings.globalPayoutHold = true →
        (arePayoutsAllowed fridaySettings ⟨3, 600⟩).1 = false) ∧
     (fridaySettings.globalPayoutHold = false →
        fridaySettings.payoutSchedule.enabled = false →
        (arePayoutsAllowed fridaySettings ⟨3, 600⟩).1 = true) ∧
     (fridaySettings.globalPayoutHold = false →
        fridaySettings.payoutSchedule.enabled = true →
        ((arePayoutsAllowed fridaySettings ⟨3, 600⟩).1 = true ↔
          (Instant.dow ⟨3, 600⟩ = fridaySettings.payoutSchedule.dayOfWeek ∧
           fridaySettings.payoutSchedule.startTime ≤ (600 : Nat) ∧
           (600 : Nat) ≤ fridaySettings.payoutSchedule.endTime))) ∧
     (fridaySettings.globalPayoutHold = false →
        fridaySettings.payoutSchedule.enabled = true →
        ¬ (Instant.dow ⟨3, 600⟩ = fridaySettings.payoutSchedule.dayOfWeek ∧
           fridaySettings.payoutSchedule.startTime ≤ (600 : Nat) ∧
           (600 : Nat) ≤ fridaySettings.payoutSchedule.endTime) →
        ((nextPayoutWindow fridaySettings ⟨3, 600⟩).dow =
            fridaySettings.payoutSchedule.dayOfWeek ∧
         (nextPayoutWindow fridaySettings ⟨3, 600⟩).minute =
            fridaySettings.payoutSchedule.startTime ∧
         Instant.before ⟨3, 600⟩ (nextPayoutWindow fridaySettings ⟨3, 600⟩) ∧
         ∀ t : Instant, t.dow = fridaySettings.payoutSchedule.dayOfWeek →
           t.minute = fridaySettings.payoutSchedule.startTime →
           Instant.before ⟨3, 600⟩ t →
           (nextPayoutWindow fridaySettings ⟨3, 600⟩).dayIdx ≤ t.dayIdx))) := by
  refine ⟨by norm_num [fridaySettings], by norm_num [fridaySettings], ?_⟩
  exact payout_window_spec fridaySettings ⟨3, 600⟩
    (by norm_num [fridaySettings]) (by norm_num [fridaySettings])

end CessPlug
